import Mathlib

/-!
Verification of the stylesheet plugin (`src/plugins/stylesheet/CSSplugin.ts`).

The development shallowly embeds the plugin's data model and operations:
pure string transforms are Lean functions, the stateful transform lifecycle
is explicit state passing, and side effects (file writes, injection-codec
invocations, change-notifier emissions) are recorded as an ordered event
trace, mirroring the sequencing of the source's promise chains.
-/

namespace CSSPluginModel

/-- Lowercase hexadecimal digit for a value below 16 (JSON escape rendering). -/
def hexDigit (n : Nat) : Char :=
  if n < 10 then Char.ofNat (48 + n) else Char.ofNat (87 + n)

/-- JSON escaping of a single character, as performed by JSON.stringify on
string values: quote and backslash are escaped, the named control escapes
are used for backspace, tab, line feed, form feed and carriage return, and
any other control character below U+0020 is rendered as a unicode escape. -/
def jsonEscapeChar (c : Char) : String :=
  if c = '"' then "\\\""
  else if c = '\\' then "\\\\"
  else if c = '\x08' then "\\b"
  else if c = '\x09' then "\\t"
  else if c = '\x0a' then "\\n"
  else if c = '\x0c' then "\\f"
  else if c = '\x0d' then "\\r"
  else if c.toNat < 32 then
    "\\u00" ++ String.mk [hexDigit (c.toNat / 16), hexDigit (c.toNat % 16)]
  else String.mk [c]

/-- JSON.stringify applied to a string value: the escaped characters wrapped
in double quotes.  Used by the plugin to produce `safeContents`. -/
def jsonStringify (s : String) : String :=
  "\"" ++ String.join (s.data.map jsonEscapeChar) ++ "\""

/-- JavaScript string truthiness: every string except the empty one. -/
def strTruthy (s : String) : Bool := !(s = "")

/-- Split a character list on the path separator. -/
def splitOnSlash : List Char → List (List Char)
  | [] => [[]]
  | c :: cs =>
    if c = '/' then [] :: splitOnSlash cs
    else
      match splitOnSlash cs with
      | [] => [[c]]
      | h :: t => (c :: h) :: t

/-- Last element of a list of segments, with a default. -/
def lastSegD : List (List Char) → List Char → List Char
  | [], d => d
  | [x], _ => x
  | _ :: y :: t, d => lastSegD (y :: t) d

/-- Node's path.basename restricted to forward-slash paths: the last
path segment. -/
def basename (p : String) : String := String.mk (lastSegD (splitOnSlash p.data) [])

/-- Node's path.dirname restricted to forward-slash paths: everything before
the last separator, or "." when there is no separator. -/
def dirname (p : String) : String :=
  let parts := splitOnSlash p.data
  if parts.length ≤ 1 then "."
  else String.intercalate "/" (parts.dropLast.map (fun l => String.mk l))

/-- Node's path.join for the two-argument calls made by the plugin. -/
def pathJoin (a b : String) : String := a ++ "/" ++ b

/-- Modelled from the spec: `ensureUserPath` is a filesystem path resolution
helper from Utils (not part of this source tree); the spec treats path
resolution as an external collaborator, so it is modelled as the identity
on the supplied path. -/
def ensureUserPath (p : String) : String := p

/-- Modelled from the spec: `isStylesheetExtension` from Utils (not part of
this source tree) recognises a "stylesheet-extension file"; modelled as a
suffix test against the common stylesheet extensions. -/
def isStylesheetExtension (p : String) : Bool :=
  [".css", ".scss", ".sass", ".less", ".styl", ".pcss"].any
    (fun e => e.data.isSuffixOf p.data)

/-- Whitespace class of the JavaScript regular-expression escape \s:
ASCII whitespace, no-break and unicode space separators, the line and
paragraph separators and the byte-order mark. -/
def isWs (c : Char) : Bool :=
  c = ' ' || c = '\t' || c = '\n' || c = '\r' || c = '\x0b' || c = '\x0c' ||
  c.toNat = 0xA0 || c.toNat = 0x1680 ||
  (0x2000 ≤ c.toNat && c.toNat ≤ 0x200A) ||
  c.toNat = 0x2028 || c.toNat = 0x2029 || c.toNat = 0x202F ||
  c.toNat = 0x205F || c.toNat = 0x3000 || c.toNat = 0xFEFF

/-- Helper bounding the length of dropWhile, used for termination. -/
theorem dropWhile_len_le (p : α → Bool) : ∀ l : List α,
    (l.dropWhile p).length ≤ l.length := by
  intro l
  induction l with
  | nil => simp
  | cons c cs ih =>
    rw [List.dropWhile_cons]
    split
    · exact Nat.le_trans ih (Nat.le_succ _)
    · exact Nat.le_refl _

/-- The first replace of `minifyContents`, `.replace(/\s{2,}/g, " ")`: every
maximal run of two or more whitespace characters becomes a single space,
while an isolated whitespace character is kept.  The flag records that the
scan is inside a run whose replacement space has already been emitted. -/
def collapseWs (inRun : Bool) (l : List Char) : List Char :=
  match l with
  | [] => []
  | c :: cs =>
    if isWs c then
      if inRun then collapseWs true cs
      else
        match cs.head? with
        | some d => if isWs d then ' ' :: collapseWs true cs
                    else c :: collapseWs false cs
        | none => c :: collapseWs false cs
    else c :: collapseWs false cs

/-- The character filter of the second replace of `minifyContents`,
`.replace(/\t|\r|\n/g, "")`: true for the characters that are kept. -/
def keepChar (c : Char) : Bool := !(c = '\t' || c = '\r' || c = '\n')

/-- Drop matching characters from the end of a list. -/
def dropEndWhile (p : Char → Bool) (l : List Char) : List Char :=
  (l.reverse.dropWhile p).reverse

/-- JavaScript String.prototype.trim on the character list: strip
whitespace from both ends. -/
def jsTrimChars (l : List Char) : List Char :=
  dropEndWhile isWs (l.dropWhile isWs)

/-- Character-level composition of the three steps of `minifyContents`. -/
def minifyChars (l : List Char) : List Char :=
  jsTrimChars ((collapseWs false l).filter keepChar)

/-- The plugin's private `minifyContents`:
`contents.replace(/\s{2,}/g, " ").replace(/\t|\r|\n/g, "").trim()`. -/
def minifyContents (s : String) : String := String.mk (minifyChars s.data)

/-- The `inject` option of CSSPluginOptions: absent, the booleans, or a
path-computing function. -/
inductive InjectOpt where
  | notSet
  | boolTrue
  | boolFalse
  | func (f : String → String)

/-- The `outFile` option of CSSPluginOptions: absent, a plain string
(not invocable), or a path-computing function. -/
inductive OutFileOpt where
  | notSet
  | str (s : String)
  | func (f : String → String)

/-- CSSPluginOptions as accepted by the plugin constructor. -/
structure CSSPluginOptions where
  outFile : OutFileOpt := OutFileOpt.notSet
  inject : InjectOpt := InjectOpt.notSet
  group : Option String := none
  minify : Option Bool := none

/-- The constructor: `this.minify = false` unless `opts.minify` is given. -/
def pluginMinify (opts : CSSPluginOptions) : Bool := opts.minify.getD false

/-- The resolved injection path inside `inject`: a custom inject function is
applied to the module's logical path, otherwise the logical path is used. -/
def resolvedInjectPath (inj : InjectOpt) (fuseBoxPath : String) : String :=
  match inj with
  | InjectOpt.func f => f fuseBoxPath
  | _ => fuseBoxPath

/-- The string produced by the `inject` method: empty when injection is
disabled with `inject: false`, otherwise the reference-form runtime call. -/
def injectResult (inj : InjectOpt) (fuseBoxPath : String) : String :=
  match inj with
  | InjectOpt.boolFalse => ""
  | _ => "__fsbx_css(\"" ++ resolvedInjectPath inj fuseBoxPath ++ "\");"

/-- Observable side effects of the plugin, in execution order: a file write
(path, content), an invocation of the `inject` method with its resolved
path, and an emission on the host's sourceChangedEmitter. -/
inductive Event where
  | write (path : String) (content : String)
  | injectTriggered (path : String)
  | emitChange (ty : String) (content : Option String) (path : String)
deriving DecidableEq

/-- True exactly for change-notifier emissions. -/
def Event.isEmitChange : Event → Bool
  | Event.emitChange _ _ _ => true
  | _ => false

/-- True exactly for invocations of the inject method. -/
def Event.isInjectTriggered : Event → Bool
  | Event.injectTriggered _ => true
  | _ => false

/-- True exactly for writes to the given path. -/
def Event.isWriteTo (p : String) : Event → Bool
  | Event.write q _ => q = p
  | _ => false

/-- The `emitHMR` method.  `lastChangedFile = none` models the absence of a
bundle or of its `lastChangedFile` field; a present but empty string is
falsy in JavaScript and is treated the same way.  When emission is
required, exactly one event carrying the module's alternative content and
logical path is emitted. -/
def emitHMR (fuseBoxPath : String) (altContent : Option String)
    (lastChangedFile : Option String) : List Event :=
  let emitRequired :=
    match lastChangedFile with
    | some p => if strTruthy p then isStylesheetExtension p else true
    | none => true
  if emitRequired then [Event.emitChange "js" altContent fuseBoxPath] else []

/-- Modelled from the spec: the Concatenator (`Concat` from Utils, not part
of this source tree) merges (identifier, content, map) triples in input
order; contents are joined with the "\n" separator passed by
`transformGroup`, and the merged source map collects the member maps. -/
structure ConcatSt where
  pieces : List String
  maps : List String

/-- The empty concatenation state. -/
def ConcatSt.empty : ConcatSt := { pieces := [], maps := [] }

/-- Appending one (file, content, map) triple to the concatenation state. -/
def ConcatSt.add (c : ConcatSt) (_file : Option String) (content : String)
    (map : Option String) : ConcatSt :=
  { pieces := c.pieces ++ [content],
    maps := c.maps ++ (match map with | some m => [m] | none => []) }

/-- The concatenated content: pieces joined with the newline separator. -/
def ConcatSt.content (c : ConcatSt) : String :=
  String.intercalate "\n" c.pieces

/-- The merged source map of the concatenation state. -/
def ConcatSt.sourceMap (c : ConcatSt) : String :=
  String.intercalate "\n" c.maps

/-- A member of a group at finalization time, with the value of its
`generateCorrectSourceMap()` call. -/
structure SubFile where
  fuseBoxPath : String
  contents : String
  generatedSourceMap : Option String
deriving DecidableEq

/-- The configuration snapshot carried by a group's groupHandler. -/
structure GroupOptions where
  outFile : Option String := none
  inject : InjectOpt := InjectOpt.notSet

/-- A group aggregation-point module as seen by `transformGroup`. -/
structure Group where
  fuseBoxPath : String
  subFiles : List SubFile
  groupHandlerOptions : Option GroupOptions := none
  contents : String := ""
  alternativeContent : Option String := none

/-- Truthiness of the `options.outFile` test in `transformGroup`. -/
def outFileTruthy : Option String → Bool
  | some s => strTruthy s
  | none => false

/-- The group finalizer `transformGroup`.  Members are concatenated in
membership order.  With a truthy outFile the source's promise chain is
`write(outFile, content).then(() => { inject; write(mapFile, map) })`,
so the trace is content write, injection, map write, and the method
returns without reaching `emitHMR`.  Without an outFile the concatenated
content is inlined as the group's alternative content and `emitHMR` runs
on the group. -/
def transformGroup (g : Group) (lastChangedFile : Option String) :
    Group × List Event :=
  let concat := g.subFiles.foldl
    (fun c f => c.add (some f.fuseBoxPath) f.contents f.generatedSourceMap)
    ConcatSt.empty
  let options := g.groupHandlerOptions.getD {}
  let cssContents := concat.content
  if outFileTruthy options.outFile then
    let outFile := ensureUserPath (options.outFile.getD "")
    let bundleDir := dirname outFile
    let sourceMapsName := basename outFile ++ ".map"
    let concat2 := concat.add none
      ("/*# sourceMappingURL=" ++ sourceMapsName ++ " */") none
    let g2 := { g with contents := injectResult options.inject g.fuseBoxPath }
    let sourceMapsFile := ensureUserPath (pathJoin bundleDir sourceMapsName)
    (g2, [Event.write outFile concat2.content,
          Event.injectTriggered (resolvedInjectPath options.inject g.fuseBoxPath),
          Event.write sourceMapsFile concat2.sourceMap])
  else
    let safeContents := jsonStringify cssContents
    let alt := "__fsbx_css(\"" ++ g.fuseBoxPath ++ "\", " ++ safeContents ++ ");"
    let g2 := { g with alternativeContent := some alt }
    (g2, emitHMR g2.fuseBoxPath g2.alternativeContent lastChangedFile)

/-- A single stylesheet module as consumed by `transform`; contents are
already loaded (`loadContents` is delegated host I/O). -/
structure ModFile where
  fuseBoxPath : String
  contents : String
  sourceMap : Option String := none
  alternativeContent : Option String := none
  hasSubFiles : Bool := false
deriving DecidableEq

/-- Modelled from the spec: the Group Registry (`getFileGroup` and
`createFileGroup` live on the WorkflowContext, not in this source tree) is
a process-scoped mapping from group name to the ordered member list. -/
abbrev GroupRegistry := List (String × List ModFile)

/-- Registry lookup by group name (`context.getFileGroup`). -/
def lookupGroup : GroupRegistry → String → Option (List ModFile)
  | [], _ => none
  | e :: es, name => if e.1 = name then some e.2 else lookupGroup es name

/-- Registry creation of a fresh empty group (`context.createFileGroup`). -/
def createFileGroup (gs : GroupRegistry) (name : String) : GroupRegistry :=
  gs ++ [(name, [])]

/-- Appending a module to the named group (`fileGroup.addSubFile`). -/
def addSubFile (gs : GroupRegistry) (name : String) (f : ModFile) :
    GroupRegistry :=
  gs.map (fun e => if e.1 = name then (e.1, e.2 ++ [f]) else e)

/-- Truthiness of the `this.options.group` test in `transform`. -/
def groupTruthy : Option String → Bool
  | some s => strTruthy s
  | none => false

/-- Result of one `transform` call: the mutated module, the updated group
registry, the ordered event trace, and the fatal error, if any, reported
through the host's fatal-error channel. -/
structure TransformResult where
  file : ModFile
  groups : GroupRegistry
  events : List Event
  fatalError : Option String
deriving DecidableEq

/-- The per-module `transform`.  Modules that already have sub-members are
skipped.  Minification applies before routing.  On the group path the
module's source map is cleared, the module is appended to the named group
(created on first use), and the visible content becomes a require marker.
With `outFile` present but not invocable, `context.fatal` is invoked;
context.fatal is host code absent from this source tree and per the spec a
fatal configuration error halts the module's processing, so the transform
aborts there with no further effects.  With an outFile function the inject
method runs and then content (and, when present, source map) writes are
chained.  Otherwise the content is inlined and `emitHMR` runs. -/
def transform (opts : CSSPluginOptions) (file : ModFile)
    (groups : GroupRegistry) (lastChangedFile : Option String) :
    TransformResult :=
  if file.hasSubFiles then
    { file := file, groups := groups, events := [], fatalError := none }
  else
    let filePath := file.fuseBoxPath
    let newContents :=
      if pluginMinify opts then minifyContents file.contents else file.contents
    let file1 := { file with contents := newContents }
    if groupTruthy opts.group then
      let bundleName := opts.group.getD ""
      let file2 := { file1 with sourceMap := none }
      let groups1 :=
        match lookupGroup groups bundleName with
        | some _ => groups
        | none => createFileGroup groups bundleName
      let groups2 := addSubFile groups1 bundleName file2
      let marker := "require(\"~/" ++ bundleName ++ "\")"
      let file3 := { file2 with alternativeContent := some marker }
      { file := file3, groups := groups2, events := [], fatalError := none }
    else
      match opts.outFile with
      | OutFileOpt.str _ =>
        { file := file1, groups := groups, events := [],
          fatalError := some "Error in CSSConfig. outFile is expected to be a function that resolves a path" }
      | OutFileOpt.func f =>
        let userPath := ensureUserPath (f file1.fuseBoxPath)
        let injected := injectResult opts.inject file1.fuseBoxPath
        let file2 := { file1 with alternativeContent := some injected }
        let mapEvents :=
          match file2.sourceMap with
          | some sm =>
            [Event.write (pathJoin (dirname userPath) (basename userPath ++ ".map")) sm]
          | none => []
        { file := file2, groups := groups,
          events := Event.injectTriggered (resolvedInjectPath opts.inject file1.fuseBoxPath)
            :: Event.write userPath file2.contents :: mapEvents,
          fatalError := none }
      | OutFileOpt.notSet =>
        let safeContents := jsonStringify file1.contents
        let file2 := { file1 with sourceMap := none }
        let alt := "__fsbx_css(\"" ++ filePath ++ "\", " ++ safeContents ++ ")"
        let file3 := { file2 with alternativeContent := some alt }
        { file := file3, groups := groups,
          events := emitHMR filePath file3.alternativeContent lastChangedFile,
          fatalError := none }

/-- No-adjacent-whitespace relation: two neighbouring characters are never
both whitespace.  The image of `collapseWs` satisfies `Chain' RWs`. -/
def RWs (a b : Char) : Prop := ¬(isWs a = true ∧ isWs b = true)

/-- RWs holds whenever the left character is not whitespace. -/
theorem rws_of_left {a b : Char} (h : isWs a = false) : RWs a b := by
  intro hh
  rw [h] at hh
  exact Bool.false_ne_true hh.1

/-- RWs holds whenever the right character is not whitespace. -/
theorem rws_of_right {a b : Char} (h : isWs b = false) : RWs a b := by
  intro hh
  rw [h] at hh
  exact Bool.false_ne_true hh.2

/-- Membership is preserved backwards through dropWhile. -/
theorem mem_of_dropWhile {α} {p : α → Bool} :
    ∀ {l : List α} {a}, a ∈ l.dropWhile p → a ∈ l := by
  intro l
  induction l with
  | nil => intro a h; exact h
  | cons c cs ih =>
    intro a h
    rw [List.dropWhile_cons] at h
    split at h
    · exact List.mem_cons_of_mem _ (ih h)
    · exact h

/-- The head of a dropWhile result fails the predicate. -/
theorem head?_dropWhile {α} (p : α → Bool) :
    ∀ (l : List α), ∀ a ∈ (l.dropWhile p).head?, p a = false := by
  intro l
  induction l with
  | nil => simp
  | cons c cs ih =>
    rw [List.dropWhile_cons]
    split
    · exact ih
    · next hc =>
      intro a ha
      simp only [List.head?_cons, Option.mem_def, Option.some.injEq] at ha
      subst ha
      exact Bool.not_eq_true _ ▸ Bool.of_not_eq_true hc

/-- dropWhile is the identity when the head already fails the predicate. -/
theorem dropWhile_eq_self {α} (p : α → Bool) (l : List α)
    (h : ∀ a ∈ l.head?, p a = false) : l.dropWhile p = l := by
  cases l with
  | nil => rfl
  | cons c cs =>
    have hc : p c = false := h c (by simp)
    simp [List.dropWhile_cons, hc]

/-- Chain' survives dropWhile. -/
theorem chain_dropWhile {α} {R : α → α → Prop} (p : α → Bool) :
    ∀ (l : List α), l.Chain' R → (l.dropWhile p).Chain' R := by
  intro l
  induction l with
  | nil => intro h; exact h
  | cons c cs ih =>
    intro h
    rw [List.dropWhile_cons]
    split
    · exact ih h.tail
    · exact h

/-- Chain' RWs survives list reversal since RWs is symmetric. -/
theorem chain_rws_reverse {l : List Char} (h : l.Chain' RWs) :
    l.reverse.Chain' RWs := by
  rw [List.chain'_reverse]
  exact h.imp (fun a b hab => fun hba => hab ⟨hba.2, hba.1⟩)

/-- Chain' RWs survives dropEndWhile. -/
theorem chain_dropEnd (p : Char → Bool) {l : List Char}
    (h : l.Chain' RWs) : (dropEndWhile p l).Chain' RWs := by
  unfold dropEndWhile
  exact chain_rws_reverse (chain_dropWhile p _ (chain_rws_reverse h))

/-- Membership is preserved backwards through dropEndWhile. -/
theorem mem_of_dropEnd {p : Char → Bool} {l : List Char} {a : Char}
    (h : a ∈ dropEndWhile p l) : a ∈ l := by
  unfold dropEndWhile at h
  rw [List.mem_reverse] at h
  have := mem_of_dropWhile h
  rwa [List.mem_reverse] at this

/-- The last element of a dropEndWhile result fails the predicate. -/
theorem getLast?_dropEnd (p : Char → Bool) (l : List Char) :
    ∀ a ∈ (dropEndWhile p l).getLast?, p a = false := by
  unfold dropEndWhile
  rw [List.getLast?_reverse]
  exact head?_dropWhile p l.reverse

/-- dropEndWhile is the identity when the last element fails the predicate. -/
theorem dropEnd_eq_self (p : Char → Bool) (l : List Char)
    (h : ∀ a ∈ l.getLast?, p a = false) : dropEndWhile p l = l := by
  unfold dropEndWhile
  rw [dropWhile_eq_self p l.reverse (by rwa [List.head?_reverse]),
      List.reverse_reverse]

/-- The trimmed-from-the-end list is a prefix of the original list. -/
theorem dropEnd_append (p : Char → Bool) (l : List Char) :
    dropEndWhile p l ++ (l.reverse.takeWhile p).reverse = l := by
  unfold dropEndWhile
  rw [← List.reverse_append, List.takeWhile_append_dropWhile,
      List.reverse_reverse]

/-- The head of a dropEndWhile result is the head of the original list. -/
theorem head?_dropEnd (p : Char → Bool) (l : List Char) :
    ∀ a ∈ (dropEndWhile p l).head?, a ∈ l.head? := by
  intro a ha
  cases hA : dropEndWhile p l with
  | nil => rw [hA] at ha; simp at ha
  | cons x xs =>
    rw [hA] at ha
    simp only [List.head?_cons, Option.mem_def, Option.some.injEq] at ha
    subst ha
    have hl := dropEnd_append p l
    rw [hA] at hl
    rw [← hl]
    simp

/-- collapseWs with the flag set first discards the remaining whitespace of
the current run. -/
theorem collapse_true_eq (l : List Char) :
    collapseWs true l = collapseWs false (l.dropWhile isWs) := by
  induction l with
  | nil => rfl
  | cons c cs ih =>
    by_cases hc : isWs c = true
    · rw [List.dropWhile_cons_of_pos hc]
      rw [show collapseWs true (c :: cs) = collapseWs true cs from by
        simp [collapseWs, hc]]
      exact ih
    · have hc' : isWs c = false := Bool.of_not_eq_true hc
      rw [List.dropWhile_cons_of_neg hc]
      simp [collapseWs, hc']

/-- collapseWs keeps a non-whitespace head in place. -/
theorem collapse_head (l : List Char)
    (hl : ∀ a ∈ l.head?, isWs a = false) :
    ∀ a ∈ (collapseWs false l).head?, isWs a = false := by
  cases l with
  | nil => simp [collapseWs]
  | cons c cs =>
    have hc : isWs c = false := hl c (by simp)
    intro a ha
    rw [show collapseWs false (c :: cs) = c :: collapseWs false cs from by
      simp [collapseWs, hc]] at ha
    simp only [List.head?_cons, Option.mem_def, Option.some.injEq] at ha
    subst ha
    exact hc

/-- Non-whitespace characters are kept by the tab/CR/LF filter. -/
theorem keep_of_nonWs {c : Char} (h : isWs c = false) : keepChar c = true := by
  by_contra hk
  have hk2 : (c = '\t' || c = '\r' || c = '\n') = true := by
    cases hkc : (c = '\t' || c = '\r' || c = '\n')
    · exact absurd (by simp [keepChar, hkc]) hk
    · rfl
  simp only [Bool.or_eq_true, decide_eq_true_eq] at hk2
  rcases hk2 with (h1 | h1) | h1 <;> subst h1 <;> exact absurd h (by decide)

/-- The output of collapseWs has no two adjacent whitespace characters. -/
theorem chain_collapse : ∀ l : List Char, (collapseWs false l).Chain' RWs
  | [] => by simp [collapseWs]
  | c :: cs => by
    by_cases hc : isWs c = true
    · cases hd : cs.head? with
      | none =>
        have hcs : cs = [] := by cases cs with
          | nil => rfl
          | cons d ds => simp at hd
        subst hcs
        simp [collapseWs, hc, List.chain'_singleton]
      | some d =>
        by_cases hdws : isWs d = true
        · rw [show collapseWs false (c :: cs) = ' ' :: collapseWs true cs from by
            simp [collapseWs, hc, hd, hdws]]
          rw [collapse_true_eq, List.chain'_cons']
          constructor
          · intro y hy
            exact rws_of_right
              (collapse_head _ (head?_dropWhile isWs cs) y hy)
          · exact chain_collapse (cs.dropWhile isWs)
        · have hdws' : isWs d = false := Bool.of_not_eq_true hdws
          rw [show collapseWs false (c :: cs) = c :: collapseWs false cs from by
            simp [collapseWs, hc, hd, hdws']]
          rw [List.chain'_cons']
          constructor
          · intro y hy
            refine rws_of_right (collapse_head cs ?_ y hy)
            intro b hb
            rw [hd] at hb
            simp only [Option.mem_def, Option.some.injEq] at hb
            subst hb
            exact hdws'
          · exact chain_collapse cs
    · have hc' : isWs c = false := Bool.of_not_eq_true hc
      rw [show collapseWs false (c :: cs) = c :: collapseWs false cs from by
        simp [collapseWs, hc']]
      rw [List.chain'_cons']
      exact ⟨fun y _ => rws_of_left hc', chain_collapse cs⟩
termination_by l => l.length
decreasing_by
  all_goals simp only [List.length_cons]
  · exact Nat.lt_succ_of_le (dropWhile_len_le _ _)
  · exact Nat.lt_succ_self _
  · exact Nat.lt_succ_self _

/-- collapseWs is the identity on lists with no adjacent whitespace. -/
theorem collapse_id : ∀ (l : List Char), l.Chain' RWs → collapseWs false l = l
  | [], _ => rfl
  | c :: cs, h => by
    by_cases hc : isWs c = true
    · cases hd : cs.head? with
      | none =>
        have hcs : cs = [] := by cases cs with
          | nil => rfl
          | cons d ds => simp at hd
        subst hcs
        simp [collapseWs, hc]
      | some d =>
        have hmem : d ∈ cs.head? := by rw [hd]; rfl
        have hrws := (List.chain'_cons'.mp h).1 d hmem
        have hdws : isWs d = false := by
          cases hdd : isWs d with
          | false => rfl
          | true => exact absurd ⟨hc, hdd⟩ hrws
        rw [show collapseWs false (c :: cs) = c :: collapseWs false cs from by
          simp [collapseWs, hc, hd, hdws]]
        rw [collapse_id cs (List.chain'_cons'.mp h).2]
    · have hc' : isWs c = false := Bool.of_not_eq_true hc
      rw [show collapseWs false (c :: cs) = c :: collapseWs false cs from by
        simp [collapseWs, hc']]
      rw [collapse_id cs (List.chain'_cons'.mp h).2]

/-- The tab/CR/LF filter preserves the no-adjacent-whitespace property,
because it only ever removes whitespace characters. -/
theorem chain_filter : ∀ (l : List Char),
    l.Chain' RWs → (l.filter keepChar).Chain' RWs
  | [], _ => by simp
  | c :: cs, h => by
    have h1 := (List.chain'_cons'.mp h).1
    have h2 := (List.chain'_cons'.mp h).2
    by_cases hk : keepChar c = true
    · rw [List.filter_cons_of_pos hk, List.chain'_cons']
      refine ⟨?_, chain_filter cs h2⟩
      intro y hy
      by_cases hc : isWs c = true
      · cases cs with
        | nil => simp at hy
        | cons d ds =>
          have hrws := h1 d (by simp)
          have hd : isWs d = false := by
            cases hdd : isWs d with
            | false => rfl
            | true => exact absurd ⟨hc, hdd⟩ hrws
          have hkd : keepChar d = true := keep_of_nonWs hd
          rw [List.filter_cons_of_pos hkd] at hy
          simp only [List.head?_cons, Option.mem_def, Option.some.injEq] at hy
          subst hy
          exact rws_of_right hd
      · exact rws_of_left (Bool.of_not_eq_true hc)
    · rw [List.filter_cons_of_neg hk]
      exact chain_filter cs h2

/-- A list already in minified shape is untouched by the minifier. -/
theorem minify_fixed (r : List Char)
    (hchain : r.Chain' RWs)
    (hkeep : ∀ a ∈ r, keepChar a = true)
    (hhead : ∀ a ∈ r.head?, isWs a = false)
    (hlast : ∀ a ∈ r.getLast?, isWs a = false) :
    minifyChars r = r := by
  unfold minifyChars jsTrimChars
  rw [collapse_id r hchain, List.filter_eq_self.mpr hkeep,
      dropWhile_eq_self isWs r hhead, dropEnd_eq_self isWs r hlast]

/-- The output of the minifier is in minified shape. -/
theorem minify_invariants (l : List Char) :
    (minifyChars l).Chain' RWs ∧
    (∀ a ∈ minifyChars l, keepChar a = true) ∧
    (∀ a ∈ (minifyChars l).head?, isWs a = false) ∧
    (∀ a ∈ (minifyChars l).getLast?, isWs a = false) := by
  unfold minifyChars jsTrimChars
  refine ⟨?_, ?_, ?_, ?_⟩
  · exact chain_dropEnd isWs
      (chain_dropWhile isWs _ (chain_filter _ (chain_collapse l)))
  · intro a ha
    have := mem_of_dropWhile (mem_of_dropEnd ha)
    exact (List.mem_filter.mp this).2
  · intro a ha
    exact head?_dropWhile isWs _ a (head?_dropEnd isWs _ a ha)
  · exact getLast?_dropEnd isWs _

/-- C8 (confirmed): minification is idempotent — for every content string s,
minifyContents (minifyContents s) = minifyContents s. -/
theorem c8_minify_idempotent (s : String) :
    minifyContents (minifyContents s) = minifyContents s := by
  show String.mk (minifyChars (minifyChars s.data)) = String.mk (minifyChars s.data)
  congr 1
  have h := minify_invariants s.data
  exact minify_fixed _ h.1 h.2.1 h.2.2.1 h.2.2.2

/-- injectResult produces the reference-form call whenever injection is not
disabled. -/
theorem injectResult_of_ne (inj : InjectOpt) (p : String)
    (h : inj ≠ InjectOpt.boolFalse) :
    injectResult inj p = "__fsbx_css(\"" ++ resolvedInjectPath inj p ++ "\");" := by
  cases inj
  · rfl
  · rfl
  · exact absurd rfl h
  · rfl

/-- Appending to an existing group updates exactly that group's member
list, in append position. -/
theorem lookupGroup_add_self (name : String) (f : ModFile) :
    ∀ (gs : GroupRegistry) (l : List ModFile), lookupGroup gs name = some l →
      lookupGroup (addSubFile gs name f) name = some (l ++ [f]) := by
  intro gs
  induction gs with
  | nil => intro l h; simp [lookupGroup] at h
  | cons e es ih =>
    intro l h
    by_cases he : e.1 = name
    · rw [lookupGroup, if_pos he] at h
      have hl : l = e.2 := by simpa using h.symm
      subst hl
      simp [addSubFile, lookupGroup, he]
    · rw [lookupGroup, if_neg he] at h
      have := ih l h
      simpa [addSubFile, lookupGroup, he] using this

/-- Appending to a freshly created group yields a one-member list. -/
theorem lookupGroup_add_new (name : String) (f : ModFile) :
    ∀ (gs : GroupRegistry), lookupGroup gs name = none →
      lookupGroup (addSubFile (createFileGroup gs name) name f) name = some [f] := by
  intro gs
  induction gs with
  | nil => intro _; simp [lookupGroup, createFileGroup, addSubFile]
  | cons e es ih =>
    intro h
    have he : ¬(e.1 = name) := by
      intro he
      rw [lookupGroup, if_pos he] at h
      exact Option.noConfusion h
    rw [lookupGroup, if_neg he] at h
    have := ih h
    simpa [createFileGroup, addSubFile, lookupGroup, he] using this

/-- Appending to one group leaves every other group unchanged. -/
theorem lookupGroup_add_other (name n' : String) (f : ModFile)
    (hne : n' ≠ name) :
    ∀ (gs : GroupRegistry),
      lookupGroup (addSubFile gs name f) n' = lookupGroup gs n' := by
  intro gs
  induction gs with
  | nil => rfl
  | cons e es ih =>
    by_cases he : e.1 = n'
    · have hnn : ¬(e.1 = name) := by rw [he]; exact hne
      simp [addSubFile, lookupGroup, he, hnn, hne]
    · have hnm : name ≠ n' := Ne.symm hne
      by_cases hnn : e.1 = name
      · simpa [addSubFile, lookupGroup, he, hnn, hnm] using ih
      · simpa [addSubFile, lookupGroup, he, hnn] using ih

/-- Creating a group leaves every other group unchanged. -/
theorem lookupGroup_create_other (name n' : String) (hne : n' ≠ name) :
    ∀ (gs : GroupRegistry),
      lookupGroup (createFileGroup gs name) n' = lookupGroup gs n' := by
  intro gs
  induction gs with
  | nil =>
    have hb : ¬(name = n') := fun h => hne h.symm
    simp [createFileGroup, lookupGroup, hb]
  | cons e es ih =>
    by_cases he : e.1 = n'
    · simp [createFileGroup, lookupGroup, he]
    · simpa [createFileGroup, lookupGroup, he] using ih

/-- C3 (corrected claim): `emitHMR` emits no event when the host's
last-changed file is a (truthy) non-stylesheet path; it emits exactly one
event, whose path is the module's logical path, when the last-changed file
is a stylesheet path; and when the host reports no bundle-level
last-changed context it also emits that one event (emission defaults to
required), rather than being a no-op. -/
theorem c3_emitHMR_gating (path : String) (alt : Option String) :
    (∀ p, strTruthy p = true → isStylesheetExtension p = false →
        emitHMR path alt (some p) = []) ∧
    (∀ p, strTruthy p = true → isStylesheetExtension p = true →
        emitHMR path alt (some p) = [Event.emitChange "js" alt path]) ∧
    emitHMR path alt none = [Event.emitChange "js" alt path] := by
  refine ⟨?_, ?_, ?_⟩
  · intro p ht hs
    simp [emitHMR, ht, hs]
  · intro p ht hs
    simp [emitHMR, ht, hs]
  · simp [emitHMR]

/-- Witness for C3 at concrete inputs: a JS-file change is not re-emitted,
a CSS-file change is, and the no-context build emits. -/
theorem c3_witness :
    emitHMR "a.css" (some "alt") (some "app.js") = [] ∧
    emitHMR "a.css" (some "alt") (some "style.css")
      = [Event.emitChange "js" (some "alt") "a.css"] ∧
    emitHMR "a.css" (some "alt") none
      = [Event.emitChange "js" (some "alt") "a.css"] :=
  ⟨(c3_emitHMR_gating "a.css" (some "alt")).1 "app.js" (by decide) (by decide),
   (c3_emitHMR_gating "a.css" (some "alt")).2.1 "style.css" (by decide) (by decide),
   (c3_emitHMR_gating "a.css" (some "alt")).2.2⟩

/-- Counterexample for C3 as stated: with no bundle-level last-changed
context, `emitHMR` is not a no-op — it emits the change event. -/
theorem c3_counterexample :
    emitHMR "a.css" (some "alt") none
      = [Event.emitChange "js" (some "alt") "a.css"] ∧
    emitHMR "a.css" (some "alt") none ≠ [] := by
  exact ⟨by decide, by decide⟩

/-- C4 (corrected claim): for a module transformed with no group and no
output path, the replacement is the value-form call
`__fsbx_css("<logicalPath>", <jsonEscapedContents>)` carrying the
(possibly minified) content — with no trailing semicolon. -/
theorem c4_inline_value_form (opts : CSSPluginOptions) (file : ModFile)
    (groups : GroupRegistry) (lc : Option String)
    (hsub : file.hasSubFiles = false)
    (hgroup : groupTruthy opts.group = false)
    (hout : opts.outFile = OutFileOpt.notSet) :
    (transform opts file groups lc).file.alternativeContent =
      some ("__fsbx_css(\"" ++ file.fuseBoxPath ++ "\", " ++
        jsonStringify (if pluginMinify opts then minifyContents file.contents
          else file.contents) ++ ")") := by
  simp [transform, hsub, hgroup, hout]

/-- Witness for C4 on the spec's scenario module `a.css`. -/
theorem c4_witness :
    ({ fuseBoxPath := "a.css", contents := ".a\x7bcolor:red\x7d" } : ModFile).hasSubFiles = false ∧
    groupTruthy ({} : CSSPluginOptions).group = false ∧
    ({} : CSSPluginOptions).outFile = OutFileOpt.notSet ∧
    (transform {} { fuseBoxPath := "a.css", contents := ".a\x7bcolor:red\x7d" }
        [] none).file.alternativeContent
      = some "__fsbx_css(\"a.css\", \".a\x7bcolor:red\x7d\")" :=
  ⟨rfl, rfl, rfl, by
    have h := c4_inline_value_form {}
      { fuseBoxPath := "a.css", contents := ".a\x7bcolor:red\x7d" } [] none rfl rfl rfl
    rw [h]; rfl⟩

/-- Counterexample for C4 as stated: the produced replacement for `a.css`
is the value call without a trailing semicolon, so it differs from the
claimed template form that ends in a semicolon. -/
theorem c4_counterexample :
    (transform {} { fuseBoxPath := "a.css", contents := ".a\x7bcolor:red\x7d" }
        [] none).file.alternativeContent
      = some "__fsbx_css(\"a.css\", \".a\x7bcolor:red\x7d\")" ∧
    (transform {} { fuseBoxPath := "a.css", contents := ".a\x7bcolor:red\x7d" }
        [] none).file.alternativeContent
      ≠ some "__fsbx_css(\"a.css\", \".a\x7bcolor:red\x7d\");" := by
  exact ⟨by decide, by decide⟩

/-- C5 (corrected claim): with `inject: false` the emitted replacement is
the empty string exactly on the branches that invoke the inject method —
the ungrouped direct-output branch (where it lands in the alternative
content) and the grouped finalization branch with an output file (where it
lands in the group's contents); the inline branches ignore the option. -/
theorem c5_inject_false_empty_on_outfile_paths :
    (∀ (f : String → String) (file : ModFile) (groups : GroupRegistry)
        (lc : Option String) (minify : Option Bool),
      file.hasSubFiles = false →
      (transform { outFile := OutFileOpt.func f, inject := InjectOpt.boolFalse,
                   minify := minify } file groups lc).file.alternativeContent = some "") ∧
    (∀ (g : Group) (lc : Option String) (ofPath : String),
      g.groupHandlerOptions =
        some { outFile := some ofPath, inject := InjectOpt.boolFalse } →
      strTruthy ofPath = true →
      (transformGroup g lc).1.contents = "") := by
  constructor
  · intro f file groups lc minify hsub
    simp [transform, hsub, groupTruthy, injectResult]
  · intro g lc ofPath hopts htr
    simp [transformGroup, hopts, outFileTruthy, htr, injectResult]

/-- Concrete suppressed-injection group used to witness C5. -/
def c5exGroup : Group :=
  { fuseBoxPath := "bundle.css", subFiles := [],
    groupHandlerOptions :=
      some { outFile := some "bundle.css", inject := InjectOpt.boolFalse } }

/-- Witness for C5 at concrete inputs on both output-path branches. -/
theorem c5_witness :
    (transform { outFile := OutFileOpt.func (fun p => "dist/" ++ p),
                 inject := InjectOpt.boolFalse, minify := none }
      { fuseBoxPath := "a.css", contents := "x" } [] none).file.alternativeContent
        = some "" ∧
    (transformGroup c5exGroup none).1.contents = "" :=
  ⟨c5_inject_false_empty_on_outfile_paths.1 (fun p => "dist/" ++ p)
      { fuseBoxPath := "a.css", contents := "x" } [] none none rfl,
   c5_inject_false_empty_on_outfile_paths.2 c5exGroup
      none "bundle.css" rfl (by decide)⟩

/-- Counterexample for C5 as stated: an ungrouped module with no output
path and `inject: false` still receives the full value-form replacement,
not the empty string — the inline branch ignores injection suppression. -/
theorem c5_counterexample :
    (transform { inject := InjectOpt.boolFalse }
      { fuseBoxPath := "a.css", contents := "x" } [] none).file.alternativeContent
        = some "__fsbx_css(\"a.css\", \"x\")" ∧
    (transform { inject := InjectOpt.boolFalse }
      { fuseBoxPath := "a.css", contents := "x" } [] none).file.alternativeContent
        ≠ some "" := by
  exact ⟨by decide, by decide⟩

/-- C6 (corrected claim): for a module transformed with an output-path
function and no group, the replacement carries no inline content: it is
the reference-form call on the resolved injection path when injection is
not suppressed, and the empty string under `inject: false`. -/
theorem c6_outfile_reference_or_suppressed (opts : CSSPluginOptions)
    (file : ModFile) (groups : GroupRegistry) (lc : Option String)
    (f : String → String)
    (hsub : file.hasSubFiles = false)
    (hgroup : groupTruthy opts.group = false)
    (hout : opts.outFile = OutFileOpt.func f) :
    (opts.inject = InjectOpt.boolFalse →
      (transform opts file groups lc).file.alternativeContent = some "") ∧
    (opts.inject ≠ InjectOpt.boolFalse →
      (transform opts file groups lc).file.alternativeContent =
        some ("__fsbx_css(\"" ++
          resolvedInjectPath opts.inject file.fuseBoxPath ++ "\");")) := by
  constructor
  · intro hinj
    simp [transform, hsub, hgroup, hout, injectResult, hinj]
  · intro hinj
    simp [transform, hsub, hgroup, hout, injectResult_of_ne opts.inject _ hinj]

/-- Witness for C6 at concrete inputs, both with default injection and with
suppressed injection. -/
theorem c6_witness :
    (transform { outFile := OutFileOpt.func (fun p => "dist/" ++ p),
                 inject := InjectOpt.boolFalse }
      { fuseBoxPath := "a.css", contents := "x" } [] none).file.alternativeContent
        = some "" ∧
    (transform { outFile := OutFileOpt.func (fun p => "dist/" ++ p) }
      { fuseBoxPath := "a.css", contents := "x" } [] none).file.alternativeContent
        = some ("__fsbx_css(\"" ++
            resolvedInjectPath InjectOpt.notSet "a.css" ++ "\");") :=
  ⟨(c6_outfile_reference_or_suppressed
      { outFile := OutFileOpt.func (fun p => "dist/" ++ p),
        inject := InjectOpt.boolFalse }
      { fuseBoxPath := "a.css", contents := "x" } [] none
      (fun p => "dist/" ++ p) rfl rfl rfl).1 rfl,
   (c6_outfile_reference_or_suppressed
      { outFile := OutFileOpt.func (fun p => "dist/" ++ p) }
      { fuseBoxPath := "a.css", contents := "x" } [] none
      (fun p => "dist/" ++ p) rfl rfl rfl).2
      (fun h => InjectOpt.noConfusion h)⟩

/-- Counterexample for C6 as stated: with `inject: false` the replacement
is the empty string, not the reference-form call on the resolved
injection path. -/
theorem c6_counterexample :
    (transform { outFile := OutFileOpt.func (fun p => "dist/" ++ p),
                 inject := InjectOpt.boolFalse }
      { fuseBoxPath := "a.css", contents := "x" } [] none).file.alternativeContent
        = some "" ∧
    (transform { outFile := OutFileOpt.func (fun p => "dist/" ++ p),
                 inject := InjectOpt.boolFalse }
      { fuseBoxPath := "a.css", contents := "x" } [] none).file.alternativeContent
        ≠ some "__fsbx_css(\"a.css\");" := by
  exact ⟨by decide, by decide⟩

/-- C7 (confirmed): when the configured outFile is present but not
invocable, the fatal configuration error is reported before any I/O (the
event trace is empty, so no file write happened), the module receives no
inline-injection replacement, and the registry is untouched. -/
theorem c7_outfile_string_fatal (opts : CSSPluginOptions) (file : ModFile)
    (groups : GroupRegistry) (lc : Option String) (s : String)
    (hsub : file.hasSubFiles = false)
    (hgroup : groupTruthy opts.group = false)
    (hout : opts.outFile = OutFileOpt.str s) :
    (transform opts file groups lc).fatalError =
      some "Error in CSSConfig. outFile is expected to be a function that resolves a path" ∧
    (transform opts file groups lc).events = [] ∧
    (transform opts file groups lc).file.alternativeContent =
      file.alternativeContent ∧
    (transform opts file groups lc).groups = groups := by
  refine ⟨?_, ?_, ?_, ?_⟩ <;> simp [transform, hsub, hgroup, hout]

/-- Witness for C7 with a string-valued outFile. -/
theorem c7_witness :
    (transform { outFile := OutFileOpt.str "dist/styles.css" }
      { fuseBoxPath := "a.css", contents := "x" } [] none).fatalError =
        some "Error in CSSConfig. outFile is expected to be a function that resolves a path" ∧
    (transform { outFile := OutFileOpt.str "dist/styles.css" }
      { fuseBoxPath := "a.css", contents := "x" } [] none).events = [] ∧
    (transform { outFile := OutFileOpt.str "dist/styles.css" }
      { fuseBoxPath := "a.css", contents := "x" } [] none).file.alternativeContent
        = none ∧
    (transform { outFile := OutFileOpt.str "dist/styles.css" }
      { fuseBoxPath := "a.css", contents := "x" } [] none).groups = [] :=
  c7_outfile_string_fatal { outFile := OutFileOpt.str "dist/styles.css" }
    { fuseBoxPath := "a.css", contents := "x" } [] none "dist/styles.css"
    rfl rfl rfl

/-- C9 (confirmed): with a group name configured, the module is appended to
the group of that name — created on first use, the existing entry reused
afterwards and every other group left unchanged — its visible content
becomes the require marker on the group's logical path, and the transform
returns with no event (no file write, no injection invocation, no change
notification) and no error. -/
theorem c9_group_path (opts : CSSPluginOptions) (file : ModFile)
    (groups : GroupRegistry) (lc : Option String) (name : String)
    (hsub : file.hasSubFiles = false)
    (hname : opts.group = some name)
    (htr : strTruthy name = true) :
    (transform opts file groups lc).events = [] ∧
    (transform opts file groups lc).fatalError = none ∧
    (transform opts file groups lc).file.alternativeContent =
      some ("require(\"~/" ++ name ++ "\")") ∧
    (∃ m : ModFile,
      lookupGroup (transform opts file groups lc).groups name =
        some ((lookupGroup groups name).getD [] ++ [m]) ∧
      m.fuseBoxPath = file.fuseBoxPath) ∧
    (∀ n', n' ≠ name →
      lookupGroup (transform opts file groups lc).groups n' =
        lookupGroup groups n') := by
  refine ⟨?_, ?_, ?_, ?_, ?_⟩
  · simp [transform, hsub, hname, groupTruthy, htr]
  · simp [transform, hsub, hname, groupTruthy, htr]
  · simp [transform, hsub, hname, groupTruthy, htr]
  · cases hl : lookupGroup groups name with
    | some l =>
      simp only [transform, hsub, hname, groupTruthy, htr, hl,
        Option.getD_some, Bool.false_eq_true, if_false, if_true, ite_true]
      exact ⟨_, lookupGroup_add_self name _ groups l hl, rfl⟩
    | none =>
      simp only [transform, hsub, hname, groupTruthy, htr, hl,
        Option.getD_some, Option.getD_none, List.nil_append,
        Bool.false_eq_true, if_false, if_true, ite_true]
      exact ⟨_, lookupGroup_add_new name _ groups hl, rfl⟩
  · intro n' hne
    cases hl : lookupGroup groups name with
    | some l =>
      simp only [transform, hsub, hname, groupTruthy, htr, hl,
        Option.getD_some, Bool.false_eq_true, if_false, if_true, ite_true]
      exact lookupGroup_add_other name n' _ hne groups
    | none =>
      simp only [transform, hsub, hname, groupTruthy, htr, hl,
        Option.getD_some, Bool.false_eq_true, if_false, if_true, ite_true]
      rw [lookupGroup_add_other name n' _ hne _,
        lookupGroup_create_other name n' hne groups]

/-- Witness for C9: two modules grouped under "bundle.css", the second
reusing the entry created by the first. -/
theorem c9_witness :
    (transform { group := some "bundle.css" }
      { fuseBoxPath := "a.css", contents := "A" } [] none).events = [] ∧
    (transform { group := some "bundle.css" }
      { fuseBoxPath := "a.css", contents := "A" } [] none).fatalError = none ∧
    (transform { group := some "bundle.css" }
      { fuseBoxPath := "a.css", contents := "A" } [] none).file.alternativeContent
        = some ("require(\"~/" ++ "bundle.css" ++ "\")") ∧
    (∃ m : ModFile,
      lookupGroup (transform { group := some "bundle.css" }
        { fuseBoxPath := "a.css", contents := "A" } [] none).groups "bundle.css" =
          some ((lookupGroup ([] : GroupRegistry) "bundle.css").getD [] ++ [m]) ∧
      m.fuseBoxPath = "a.css") ∧
    (∀ n', n' ≠ "bundle.css" →
      lookupGroup (transform { group := some "bundle.css" }
        { fuseBoxPath := "a.css", contents := "A" } [] none).groups n' =
          lookupGroup ([] : GroupRegistry) n') :=
  c9_group_path { group := some "bundle.css" }
    { fuseBoxPath := "a.css", contents := "A" } [] none "bundle.css"
    rfl rfl (by decide)

/-- C10 (confirmed): on the group path the appended member's source map is
none — the individual source map is discarded unconditionally, also when
minification is off and the incoming module carried a source map. -/
theorem c10_group_sourceMap_discarded (opts : CSSPluginOptions)
    (file : ModFile) (groups : GroupRegistry) (lc : Option String)
    (name : String)
    (hsub : file.hasSubFiles = false)
    (hname : opts.group = some name)
    (htr : strTruthy name = true) :
    ∃ prev m, lookupGroup (transform opts file groups lc).groups name =
        some (prev ++ [m]) ∧
      m.sourceMap = none ∧ m.fuseBoxPath = file.fuseBoxPath := by
  cases hl : lookupGroup groups name with
  | some l =>
    simp only [transform, hsub, hname, groupTruthy, htr, hl,
      Option.getD_some, Bool.false_eq_true, if_false, if_true, ite_true]
    refine ⟨l, _, lookupGroup_add_self name _ groups l hl, ?_, ?_⟩ <;> rfl
  | none =>
    simp only [transform, hsub, hname, groupTruthy, htr, hl,
      Option.getD_some, Bool.false_eq_true, if_false, if_true, ite_true]
    refine ⟨[],
      { fuseBoxPath := file.fuseBoxPath,
        contents := if pluginMinify opts = true then minifyContents file.contents
          else file.contents,
        sourceMap := none, alternativeContent := file.alternativeContent,
        hasSubFiles := false }, ?_, rfl, rfl⟩
    rw [List.nil_append]
    exact lookupGroup_add_new name _ groups hl

/-- Witness for C10: minification off and a module that carries a source
map; the member stored in the group has none. -/
theorem c10_witness :
    ∃ prev m,
      lookupGroup (transform { group := some "bundle.css", minify := some false }
        { fuseBoxPath := "a.css", contents := "A", sourceMap := some "MAP" }
        [] none).groups "bundle.css" = some (prev ++ [m]) ∧
      m.sourceMap = none ∧ m.fuseBoxPath = "a.css" :=
  c10_group_sourceMap_discarded
    { group := some "bundle.css", minify := some false }
    { fuseBoxPath := "a.css", contents := "A", sourceMap := some "MAP" }
    [] none "bundle.css" rfl rfl (by decide)

/-- C1 (corrected claim): the Change Notifier runs after the output is
committed only in the inline branch of group finalization; in the
output-path branch `transformGroup` returns from the write chain without
ever invoking `emitHMR`, so no change notification occurs there. -/
theorem c1_emitHMR_only_inline_branch (g : Group) (lc : Option String) :
    (outFileTruthy (g.groupHandlerOptions.getD {}).outFile = true →
      ∀ e ∈ (transformGroup g lc).2, e.isEmitChange = false) ∧
    (outFileTruthy (g.groupHandlerOptions.getD {}).outFile = false →
      (transformGroup g lc).2 =
        emitHMR g.fuseBoxPath (transformGroup g lc).1.alternativeContent lc) := by
  constructor
  · intro h e he
    simp only [transformGroup, h, if_true, ite_true] at he
    simp only [List.mem_cons, List.mem_singleton, List.not_mem_nil,
      or_false] at he
    rcases he with h1 | h1 | h1 <;> subst h1 <;> rfl
  · intro h
    simp [transformGroup, h]

/-- Concrete output-path group used for C1: emission would be required
(no last-changed context), yet the trace carries no change event. -/
def c1ex : Group :=
  { fuseBoxPath := "bundle.css",
    subFiles := [{ fuseBoxPath := "a.css", contents := "A",
                   generatedSourceMap := some "MA" }],
    groupHandlerOptions := some { outFile := some "bundle.css" } }

/-- Concrete inline group used for C1's witness. -/
def c1exInline : Group :=
  { fuseBoxPath := "bundle.css",
    subFiles := [{ fuseBoxPath := "a.css", contents := "A",
                   generatedSourceMap := some "MA" }] }

/-- Witness for C1 on both branches. -/
theorem c1_witness :
    (∀ e ∈ (transformGroup c1ex none).2, e.isEmitChange = false) ∧
    (transformGroup c1exInline none).2 =
      emitHMR c1exInline.fuseBoxPath
        (transformGroup c1exInline none).1.alternativeContent none :=
  ⟨(c1_emitHMR_only_inline_branch c1ex none).1 (by decide),
   (c1_emitHMR_only_inline_branch c1exInline none).2 (by decide)⟩

/-- Counterexample for C1 as stated: on the output-path branch, in a build
where the notifier would emit (no last-changed context), the finalization
trace contains no change event at all — emitHMR was never invoked. -/
theorem c1_counterexample :
    (transformGroup c1ex none).2.all (fun e => !e.isEmitChange) = true ∧
    emitHMR c1ex.fuseBoxPath
      (transformGroup c1ex none).1.alternativeContent none ≠ [] := by
  exact ⟨by decide, by decide⟩

/-- C2 (corrected claim): for a group with an output path, finalization
writes the concatenated content first; only after that write completes is
injection triggered, and the concatenated source map is written after
that.  The content write completes before both the injection trigger and
the map write, but injection fires before the map write, not after it. -/
theorem c2_write_then_inject_then_map (g : Group) (lc : Option String)
    (ofPath : String)
    (hof : (g.groupHandlerOptions.getD {}).outFile = some ofPath)
    (htr : strTruthy ofPath = true) :
    ∃ c p m, (transformGroup g lc).2 =
      [Event.write (ensureUserPath ofPath) c,
       Event.injectTriggered p,
       Event.write (ensureUserPath (pathJoin (dirname (ensureUserPath ofPath))
         (basename (ensureUserPath ofPath) ++ ".map"))) m] := by
  have he : (transformGroup g lc).2 =
      [Event.write (ensureUserPath ofPath)
         ((g.subFiles.foldl (fun c f =>
              c.add (some f.fuseBoxPath) f.contents f.generatedSourceMap)
            ConcatSt.empty).add none
            ("/*# sourceMappingURL=" ++
              (basename (ensureUserPath ofPath) ++ ".map") ++ " */") none).content,
       Event.injectTriggered (resolvedInjectPath
         (g.groupHandlerOptions.getD {}).inject g.fuseBoxPath),
       Event.write (ensureUserPath (pathJoin (dirname (ensureUserPath ofPath))
         (basename (ensureUserPath ofPath) ++ ".map")))
         ((g.subFiles.foldl (fun c f =>
              c.add (some f.fuseBoxPath) f.contents f.generatedSourceMap)
            ConcatSt.empty).add none
            ("/*# sourceMappingURL=" ++
              (basename (ensureUserPath ofPath) ++ ".map") ++ " */") none).sourceMap] := by
    simp [transformGroup, hof, outFileTruthy, htr]
  exact ⟨_, _, _, he⟩

/-- Concrete two-member group with an output file, used for C2. -/
def c2ex : Group :=
  { fuseBoxPath := "bundle.css",
    subFiles := [{ fuseBoxPath := "a.css", contents := "A",
                   generatedSourceMap := some "MA" },
                 { fuseBoxPath := "b.css", contents := "B",
                   generatedSourceMap := some "MB" }],
    groupHandlerOptions := some { outFile := some "bundle.css" } }

/-- Existence of two trace positions, in order, matching the two given
event predicates. -/
abbrev eventsOrdered (tr : List Event) (p q : Event → Bool) : Prop :=
  ∃ i j : Fin tr.length, i.val < j.val ∧ p (tr.get i) = true ∧ q (tr.get j) = true

/-- Witness for C2 at the concrete group. -/
theorem c2_witness :
    ∃ c p m, (transformGroup c2ex none).2 =
      [Event.write (ensureUserPath "bundle.css") c,
       Event.injectTriggered p,
       Event.write (ensureUserPath (pathJoin
         (dirname (ensureUserPath "bundle.css"))
         (basename (ensureUserPath "bundle.css") ++ ".map"))) m] :=
  c2_write_then_inject_then_map c2ex none "bundle.css" rfl (by decide)

/-- Counterexample for C2 as stated: in the concrete finalization trace no
sibling-map write precedes the injection trigger — instead the injection
trigger precedes the map write, refuting the claimed
content-then-map-then-injection order. -/
theorem c2_counterexample :
    (transformGroup c2ex none).2 =
      [Event.write "bundle.css" "A\nB\n/*# sourceMappingURL=bundle.css.map */",
       Event.injectTriggered "bundle.css",
       Event.write "./bundle.css.map" "MA\nMB"] ∧
    ¬ eventsOrdered
        [Event.write "bundle.css" "A\nB\n/*# sourceMappingURL=bundle.css.map */",
         Event.injectTriggered "bundle.css",
         Event.write "./bundle.css.map" "MA\nMB"]
        (Event.isWriteTo "./bundle.css.map") Event.isInjectTriggered ∧
    eventsOrdered
        [Event.write "bundle.css" "A\nB\n/*# sourceMappingURL=bundle.css.map */",
         Event.injectTriggered "bundle.css",
         Event.write "./bundle.css.map" "MA\nMB"]
        Event.isInjectTriggered (Event.isWriteTo "./bundle.css.map") := by
  refine ⟨by decide, by decide, by decide⟩

end CSSPluginModel
